import Mathlib

/-!
Verification development for the NBA lineup data pipeline
(`pipeline/utils.py`, `pipeline/fetch_lineups.py`, `pipeline/main.py`).

Shallow embedding conventions:
* a pandas `DataFrame` is a `DF`: a list of column names plus a list of
  rows, where a row is a total function from column name to `Cell`
  (`Option Int`; `none` models a missing value / NaN);
* an external API call is an oracle `Nat → Except E R` giving the outcome
  of each attempt (the attempt index mirrors the retry loop variable);
* exceptions raised by Python code are modelled with `Except`;
* the process-wide API-call counter is modelled by returning, next to each
  result, the number of counter increments the operation performed;
* log output relevant to the claims is modelled as explicit event lists.

Row order inside merged frames follows left-rows-then-right-rows; pandas
sorts outer-join keys, but no property below depends on row order.
-/

namespace NBAPipeline

/-- Cell values of a table; `none` models NaN / missing data. -/
abbrev Cell := Option Int

/-- A table row: a mapping from column name to cell value. -/
abbrev Row := String → Cell

/-- Embedding of a pandas DataFrame: named columns plus rows. -/
structure DF where
  cols : List String
  rows : List Row

/-- Embedding of `pd.DataFrame()` (the empty frame). -/
def emptyDF : DF := ⟨[], []⟩

/-- Embedding of `df.empty`: true when either axis has length zero. -/
def DF.isEmptyDF (df : DF) : Bool := df.rows.isEmpty || df.cols.isEmpty

/-- Column of key cells of a frame (`df[key]` as a list). -/
def keyCells (df : DF) (key : String) : List Cell :=
  df.rows.map (fun r => r key)

/-! ### Config constants (`pipeline/config.py`) -/

/-- Embedding of `config.MEASURE_TYPES`. -/
def MEASURE_TYPES : List String :=
  ["Base", "Advanced", "Four Factors", "Misc", "Scoring", "Opponent", "Defense"]

/-- Embedding of `config.API_RETRIES`. -/
def API_RETRIES : Nat := 5

/-! ### Retry caller (`utils.api_call_with_retry`)

The Python loop is `for attempt in range(retries)`; we recurse over the
explicit list of attempt indices so that everything computes by `rfl`.
The result pairs the call outcome with the number of
`_increment_api_call_count()` executions (one per attempted call).
`Except.error (some e)` models the `RuntimeError` escalated after the
final failed attempt; `Except.error none` models the unreachable
post-loop `RuntimeError` (hit only when `retries = 0`, with no attempt
made and no counter increment). -/

/-- Loop body of `api_call_with_retry`, iterating over the remaining
attempt indices. -/
def apiCallGo {E R : Type} (call : Nat → Except E R) (retries : Nat) :
    List Nat → Except (Option E) R × Nat
  | [] => (Except.error none, 0)
  | a :: rest =>
    match call a with
    | Except.ok r => (Except.ok r, 1)
    | Except.error e =>
      if a < retries - 1 then
        let res := apiCallGo call retries rest
        (res.1, res.2 + 1)
      else
        (Except.error (some e), 1)

/-- Embedding of `utils.api_call_with_retry`: attempt the call up to
`retries` times, counting every attempt. -/
def api_call_with_retry {E R : Type} (call : Nat → Except E R) (retries : Nat) :
    Except (Option E) R × Nat :=
  apiCallGo call retries (List.range retries)

/-! ### Health check (`utils.health_check`)

The wrapped endpoint call (including `get_data_frames`) is the oracle;
`health_check` wraps it in `api_call_with_retry` with `retries=3` and
returns `True` on both the has-rows and the zero-rows branch, `False`
when an exception escapes. -/

/-- Embedding of `utils.health_check`. -/
def health_check {E : Type} (call : Nat → Except E (List DF)) : Bool :=
  match (api_call_with_retry call 3).1 with
  | Except.ok dfs =>
    if !dfs.isEmpty && !(dfs.headD emptyDF).rows.isEmpty then true
    else true
  | Except.error _ => false

/-! ### Section runner (`main._run_section`) -/

/-- Value returned by a section fetcher, as inspected by
`_run_section`'s row-counting code: `None`, a dict of frames, a tuple of
optional frames, a single frame, another sized value, or an unsized
value. -/
inductive SectionValue where
  | noneVal : SectionValue
  | dictVal : List (Nat × Option DF) → SectionValue
  | tupleVal : List (Option DF) → SectionValue
  | dfVal : DF → SectionValue
  | sized : Nat → SectionValue
  | unsized : SectionValue

/-- Row count that `_run_section` computes for a returned value. -/
def sectionRows : SectionValue → Nat
  | SectionValue.noneVal => 0
  | SectionValue.dictVal m =>
      (m.map (fun p => (p.2.map (fun d => d.rows.length)).getD 0)).sum
  | SectionValue.tupleVal l =>
      (l.map (fun o => (o.map (fun d => d.rows.length)).getD 0)).sum
  | SectionValue.dfVal d => d.rows.length
  | SectionValue.sized n => n
  | SectionValue.unsized => 0

/-- Embedding of `main._run_section`: run the fetcher, catch any raised
exception as `(false, 0)`, classify a zero-row result as `(false, 0)`
and a positive-row result as `(true, rows)`. -/
def _run_section {F : Type} (fn : Except F SectionValue) : Bool × Nat :=
  match fn with
  | Except.error _ => (false, 0)
  | Except.ok v =>
    if 0 < sectionRows v then (true, sectionRows v) else (false, 0)

/-! ### Retry lemmas -/

theorem apiCallGo_ok_of_failures {E R : Type} (call : Nat → Except E R)
    (retries : Nat) (r : R) :
    ∀ k a, a + k < retries →
      (∀ i, a ≤ i → i < a + k → ∃ e, call i = Except.error e) →
      call (a + k) = Except.ok r →
      apiCallGo call retries (List.range' a (retries - a)) = (Except.ok r, k + 1) := by
  intro k
  induction k with
  | zero =>
    intro a ha _ hok
    have hok' : call a = Except.ok r := by simpa using hok
    obtain ⟨m, hm⟩ : ∃ m, retries - a = m + 1 := ⟨retries - a - 1, by omega⟩
    rw [hm, List.range'_succ]
    simp [apiCallGo, hok']
  | succ k ih =>
    intro a ha hfail hok
    obtain ⟨m, hm⟩ : ∃ m, retries - a = m + 1 := ⟨retries - a - 1, by omega⟩
    obtain ⟨e, he⟩ := hfail a (Nat.le_refl a) (by omega)
    have hlt : a < retries - 1 := by omega
    have hrec := ih (a + 1) (by omega)
      (fun i h1 h2 => hfail i (by omega) (by omega))
      (by have h : a + 1 + k = a + (k + 1) := by omega
          rw [h]; exact hok)
    have hm1 : retries - (a + 1) = m := by omega
    rw [hm, List.range'_succ]
    rw [hm1] at hrec
    simp [apiCallGo, he, hlt, hrec]

theorem apiCallGo_all_fail {E R : Type} (call : Nat → Except E R)
    (retries : Nat) (hfail : ∀ i, ∃ e, call i = Except.error e) :
    ∀ n a, 1 ≤ n → a + n = retries →
      ∃ e, apiCallGo call retries (List.range' a n) =
        (Except.error (some e), n) := by
  intro n
  induction n with
  | zero => intro a h1 _; omega
  | succ m ih =>
    intro a _ hsum
    obtain ⟨e, he⟩ := hfail a
    by_cases hm : m = 0
    · subst hm
      have hlt : ¬ a < retries - 1 := by omega
      exact ⟨e, by simp [List.range'_succ, apiCallGo, he, hlt]⟩
    · have hlt : a < retries - 1 := by omega
      obtain ⟨e2, he2⟩ := ih (a + 1) (by omega) (by omega)
      exact ⟨e2, by simp [List.range'_succ, apiCallGo, he, hlt, he2]⟩

theorem apiCallGo_count_pos {E R : Type} (call : Nat → Except E R)
    (retries a n : Nat) (hn : 1 ≤ n) :
    1 ≤ (apiCallGo call retries (List.range' a n)).2 := by
  obtain ⟨m, hm⟩ : ∃ m, n = m + 1 := ⟨n - 1, by omega⟩
  subst hm
  rw [List.range'_succ]
  cases hc : call a with
  | ok r => simp [apiCallGo, hc]
  | error e =>
    by_cases hlt : a < retries - 1 <;> simp [apiCallGo, hc, hlt]

/-- C3: for every retry ceiling `N ≥ 1` and a call oracle that fails on
each of the first `N - 1` attempts and succeeds on attempt `N - 1`
(0-indexed), `api_call_with_retry` returns the successful result and the
API-call counter is incremented exactly `N` times. -/
theorem retry_succeeds_after_failures {E R : Type} (call : Nat → Except E R)
    (N : Nat) (r : R) (hN : 1 ≤ N)
    (hfail : ∀ i, i < N - 1 → ∃ e, call i = Except.error e)
    (hok : call (N - 1) = Except.ok r) :
    api_call_with_retry call N = (Except.ok r, N) := by
  have h := apiCallGo_ok_of_failures call N r (N - 1) 0 (by omega)
    (fun i h1 h2 => hfail i (by omega)) (by simpa using hok)
  rw [api_call_with_retry, List.range_eq_range']
  simpa [Nat.sub_add_cancel hN] using h

theorem retry_succeeds_after_failures_witness :
    api_call_with_retry
      (fun i => if i < 2 then Except.error "timeout" else Except.ok (37 : Nat)) 3 =
      (Except.ok 37, 3) := by
  apply retry_succeeds_after_failures
      (fun i => if i < 2 then Except.error "timeout" else Except.ok (37 : Nat))
      3 37 (by omega)
  · intro i hi
    exact ⟨"timeout", by simp [show i < 2 from hi]⟩
  · simp

/-- C4: for every retry ceiling `N ≥ 1` and a call oracle that fails on
every attempt, `api_call_with_retry` attempts the call exactly `N` times
(the counter increases by exactly `N`) and escalates a `RuntimeError`
(modelled as `Except.error (some e)`, distinguishable from any
successful return). -/
theorem retry_exhaustion_escalates {E R : Type} (call : Nat → Except E R)
    (N : Nat) (hN : 1 ≤ N)
    (hfail : ∀ i, ∃ e, call i = Except.error e) :
    ∃ e, api_call_with_retry call N = (Except.error (some e), N) := by
  have h := apiCallGo_all_fail call N hfail N 0 hN (by omega)
  rw [api_call_with_retry, List.range_eq_range']
  exact h

theorem retry_exhaustion_escalates_witness :
    ∃ e, api_call_with_retry
      (fun _ => (Except.error "timeout" : Except String Nat)) 4 =
      (Except.error (some e), 4) :=
  retry_exhaustion_escalates (fun _ => (Except.error "timeout" : Except String Nat))
    4 (by omega) (fun _ => ⟨"timeout", rfl⟩)

/-- C10: the health check returns `true` exactly when the wrapped,
retried external call completes without an escaped exception — its
outcome is independent of how many rows the response contains — and it
returns `false` exactly when the call errors out. -/
theorem health_check_reachability {E : Type} (call : Nat → Except E (List DF)) :
    (health_check call = true ↔
      ∃ dfs, (api_call_with_retry call 3).1 = Except.ok dfs) ∧
    (health_check call = false ↔
      ∃ e, (api_call_with_retry call 3).1 = Except.error e) := by
  unfold health_check
  cases h : (api_call_with_retry call 3).1 with
  | ok dfs =>
    refine ⟨by simp [h], ?_, ?_⟩
    · intro hfalse
      exact absurd hfalse (by simp)
    · rintro ⟨e, he⟩
      exact Except.noConfusion he
  | error e =>
    refine ⟨⟨?_, ?_⟩, by simp [h]⟩
    · intro htrue
      exact absurd htrue (by simp)
    · rintro ⟨dfs, hdfs⟩
      exact Except.noConfusion hdfs

/-- C7: the section runner catches a raised exception as a failed
section with zero rows, classifies a zero-row result as failed, and
classifies a result with at least one row as succeeded with that row
count — it never propagates an exception. -/
theorem section_runner_classification {F : Type} (e : F) (v : SectionValue) :
    _run_section (Except.error e : Except F SectionValue) = (false, 0) ∧
    (sectionRows v = 0 → _run_section (Except.ok v : Except F SectionValue) = (false, 0)) ∧
    (0 < sectionRows v →
      _run_section (Except.ok v : Except F SectionValue) = (true, sectionRows v)) := by
  refine ⟨rfl, ?_, ?_⟩
  · intro h0
    simp [_run_section, h0]
  · intro hpos
    simp [_run_section, hpos]

theorem section_runner_classification_witness :
    _run_section (Except.error "boom" : Except String SectionValue) = (false, 0) ∧
    _run_section (Except.ok (SectionValue.sized 0) : Except String SectionValue) =
      (false, 0) ∧
    _run_section (Except.ok (SectionValue.sized 7) : Except String SectionValue) =
      (true, 7) :=
  ⟨(section_runner_classification "boom" (SectionValue.sized 0)).1,
   (section_runner_classification "boom" (SectionValue.sized 0)).2.1 (by decide),
   by simpa using
     (section_runner_classification "boom" (SectionValue.sized 7)).2.2 (by decide)⟩

/-! ### Orchestrator (`main.run`)

Command-line flags are modelled as a record (`argparse` imposes no
mutual exclusion on them). The health-check endpoint call is an attempt
oracle as above; each section fetcher is supplied as its outcome
(`Except` of the returned value) paired with the number of API calls it
performed. The seven supplementary fetchers are supplied as a list in
the fixed order the code invokes them. -/

/-- Parsed command-line flags of `main._parse_args` (season string and
verbosity omitted: no claim concerns them). -/
structure Args where
  lineups_only : Bool
  supplementary_only : Bool
  dry_run : Bool

/-- How a run terminates: `sys.exit(1)` after a failed dry-run health
check, a normal dry-run return, or a completed run carrying the
per-section `(success, rows)` summary entries. -/
inductive RunOutcome where
  | exitFailure : RunOutcome
  | dryRunDone : RunOutcome
  | completed : List (String × (Bool × Nat)) → RunOutcome

/-- Embedding of `main.run`: health check first, dry-run handling, then
the lineups section unless `supplementary_only`, then the supplementary
sections unless `lineups_only`. Returns the outcome and the total
API-call counter value. -/
def run {E F : Type} (args : Args) (health : Nat → Except E (List DF))
    (lineupsSection : Except F SectionValue × Nat)
    (suppSections : List (String × (Except F SectionValue × Nat))) :
    RunOutcome × Nat :=
  let hcCalls := (api_call_with_retry health 3).2
  let hcOk := health_check health
  if !hcOk && args.dry_run then (RunOutcome.exitFailure, hcCalls)
  else if args.dry_run then (RunOutcome.dryRunDone, hcCalls)
  else
    let lineupPart :=
      if !args.supplementary_only then
        ([("Lineups", _run_section lineupsSection.1)], lineupsSection.2)
      else ([], 0)
    let suppPart :=
      if !args.lineups_only then
        (suppSections.map (fun s => (s.1, _run_section s.2.1)),
         (suppSections.map (fun s => s.2.2)).sum)
      else ([], 0)
    (RunOutcome.completed (lineupPart.1 ++ suppPart.1),
     hcCalls + lineupPart.2 + suppPart.2)

/-- C2 counterexample: invoking the orchestrator with both
`--lineups-only` and `--supplementary-only` set does not raise any
configuration error — the run completes normally with an empty section
summary — and the health check has already made an external call, so
the counter is 1, not 0. -/
theorem run_both_flags_counterexample :
    run ⟨true, true, false⟩
      (fun _ => (Except.ok [] : Except String (List DF)))
      ((Except.ok SectionValue.noneVal : Except String SectionValue), 0)
      [] =
    (RunOutcome.completed [], 1) ∧ (1 : Nat) ≠ 0 := by
  constructor
  · rfl
  · decide

/-- C2 (amended): invoking the orchestrator with both mutually exclusive
flags set (and dry-run off) is not rejected — no configuration error
exists in the code. The health check still runs, so the external-call
counter ends at the health check's attempt count (at least 1, never 0),
and both the lineups and supplementary sections are skipped, leaving an
empty section summary. -/
theorem run_both_flags_skips_everything {E F : Type}
    (health : Nat → Except E (List DF))
    (lineupsSection : Except F SectionValue × Nat)
    (suppSections : List (String × (Except F SectionValue × Nat)))
    (args : Args) (h1 : args.lineups_only = true)
    (h2 : args.supplementary_only = true) (h3 : args.dry_run = false) :
    (run args health lineupsSection suppSections).1 = RunOutcome.completed [] ∧
    (run args health lineupsSection suppSections).2 =
      (api_call_with_retry health 3).2 ∧
    1 ≤ (run args health lineupsSection suppSections).2 := by
  have hcount : 1 ≤ (api_call_with_retry health 3).2 := by
    rw [api_call_with_retry, List.range_eq_range']
    exact apiCallGo_count_pos health 3 0 3 (by omega)
  refine ⟨?_, ?_, ?_⟩ <;>
    simp [run, h1, h2, h3, hcount]

theorem run_both_flags_skips_everything_witness :
    (run ⟨true, true, false⟩
        (fun _ => (Except.ok [] : Except String (List DF)))
        ((Except.ok SectionValue.noneVal : Except String SectionValue), 0)
        []).1 = RunOutcome.completed [] ∧
    (run ⟨true, true, false⟩
        (fun _ => (Except.ok [] : Except String (List DF)))
        ((Except.ok SectionValue.noneVal : Except String SectionValue), 0)
        []).2 =
      (api_call_with_retry (fun _ => (Except.ok [] : Except String (List DF))) 3).2 ∧
    1 ≤ (run ⟨true, true, false⟩
        (fun _ => (Except.ok [] : Except String (List DF)))
        ((Except.ok SectionValue.noneVal : Except String SectionValue), 0)
        []).2 :=
  run_both_flags_skips_everything
    (fun _ => (Except.ok [] : Except String (List DF)))
    ((Except.ok SectionValue.noneVal : Except String SectionValue), 0)
    [] ⟨true, true, false⟩ rfl rfl rfl

/-! ### Frame merger (`utils.merge_measure_types`)

Column selection `df[new_cols]` keeps only the listed columns; pandas
`pd.merge(left, right, on=key, how="outer")` is embedded with matched
pairs first (cartesian per key, left cells preferred on the left
frame's columns), then unmatched left rows padded with NaN, then
unmatched right rows. The merger never feeds overlapping non-key
columns to the join (the claimed-columns set prevents it), so pandas
suffixing never triggers and is not modelled. -/

/-- Embedding of the column selection `df[new_cols]`. -/
def selectCols (df : DF) (cs : List String) : DF :=
  ⟨cs, df.rows.map (fun r c => if cs.contains c then r c else none)⟩

/-- Rows a single left row contributes to an outer merge: the cartesian
match against the right rows sharing its key value, or the NaN-padded
left row when no right row matches. -/
def joinMatches (key : String) (l r : DF) (lr : Row) : List Row :=
  let ms := r.rows.filter (fun rr => rr key == lr key)
  if ms.isEmpty then
    [fun c => if l.cols.contains c then lr c else none]
  else
    ms.map (fun rr c => if l.cols.contains c then lr c else rr c)

/-- Left block of an outer merge: every left row's contribution. -/
def leftJoinRows (key : String) (l r : DF) : List Row :=
  l.rows.flatMap (joinMatches key l r)

/-- Right block of an outer merge: right rows with no key match on the
left, NaN-padded on the left frame's non-key columns. -/
def rightOnlyRows (key : String) (l r : DF) : List Row :=
  (r.rows.filter
      (fun rr => !(l.rows.any (fun lr => lr key == rr key)))).map
    (fun rr c => if c == key then rr key
                 else if l.cols.contains c then none else rr c)

/-- Embedding of `pd.merge(l, r, on=key, how="outer")`. -/
def pd_merge_outer (key : String) (l r : DF) : DF :=
  ⟨l.cols ++ r.cols.filter (fun c => !(c == key)),
   leftJoinRows key l r ++ rightOnlyRows key l r⟩

/-- Log events emitted by `merge_measure_types`: the warning for a
`None`/empty frame, and the final info line with frame, row and column
counts. (The silent `continue` for a frame without the merge key emits
no event, exactly as in the source.) -/
inductive MergeLog where
  | skippedEmpty (measureType : String)
  | mergedInfo (nFrames nRows nCols : Nat)
deriving DecidableEq

/-- Accumulator of the selection loop in `merge_measure_types`. -/
structure MergeState where
  frames : List DF
  seen : List String
  logs : List MergeLog

/-- One iteration of the selection loop of `merge_measure_types`. -/
def mergeStep (key : String) (st : MergeState) (entry : String × Option DF) :
    MergeState :=
  match entry.2 with
  | none => { st with logs := st.logs ++ [MergeLog.skippedEmpty entry.1] }
  | some df =>
    if df.isEmptyDF then
      { st with logs := st.logs ++ [MergeLog.skippedEmpty entry.1] }
    else
      let new_cols := df.cols.filter (fun c => !(st.seen.contains c) || c == key)
      if new_cols.isEmpty || !(new_cols.contains key) then st
      else
        { frames := st.frames ++ [selectCols df new_cols],
          seen := st.seen ++ new_cols,
          logs := st.logs }

/-- Embedding of `functools.reduce` of the outer merge over the
surviving frames (the guard in `merge_measure_types` keeps the list
non-empty, so the no-initializer `reduce` starts from the head). -/
def reduceMerge (key : String) : List DF → DF
  | [] => emptyDF
  | f :: fs => fs.foldl (fun acc g => pd_merge_outer key acc g) f

/-- Embedding of `utils.merge_measure_types`: select unseen columns per
frame in declaration order, then fold the outer merge over the surviving
frames. Returns the merged frame and the emitted log events. -/
def merge_measure_types (d : List (String × Option DF)) (key : String) :
    DF × List MergeLog :=
  if d.isEmpty then (emptyDF, []) else
    let st := d.foldl (mergeStep key) ⟨[], [key], []⟩
    if st.frames.isEmpty then (emptyDF, st.logs)
    else
      let merged := reduceMerge key st.frames
      (merged,
       st.logs ++ [MergeLog.mergedInfo st.frames.length merged.rows.length
         merged.cols.length])

/-! ### Lineup fetcher (`fetch_lineups.py`) -/

/-- Log events of `fetch_all_lineups` for one parameter point: rows
received, a zero-row response, or a caught fetch exception (the skipped
point). -/
inductive FetchLog where
  | gotRows (measureType : String) (n : Nat)
  | zeroRows (measureType : String)
  | fetchFailed (measureType : String)
deriving DecidableEq

/-- Embedding of `fetch_lineups.fetch_all_lineups` for one parameter
point: run the retried call (`API_RETRIES` attempts), return the first
returned frame when it is non-empty, and catch any escalated exception
as `None` plus an error log. -/
def fetch_all_lineups {E : Type} (measureType : String)
    (attempts : Nat → Except E (List DF)) : Option DF × List FetchLog :=
  match (api_call_with_retry attempts API_RETRIES).1 with
  | Except.ok dfs =>
    match dfs with
    | [] => (none, [FetchLog.zeroRows measureType])
    | d :: _ =>
      if d.isEmptyDF then (none, [FetchLog.zeroRows measureType])
      else (some d, [FetchLog.gotRows measureType d.rows.length])
  | Except.error _ => (none, [FetchLog.fetchFailed measureType])

/-- One iteration of the measure-type loop inside
`fetch_and_merge_lineups`: fetch one measure type and keep the frame in
the dict when it is neither `None` nor empty. -/
def fetchStep {E : Type} (oracle : String → Nat → Except E (List DF))
    (acc : List (String × DF) × List FetchLog) (mt : String) :
    List (String × DF) × List FetchLog :=
  match fetch_all_lineups mt (oracle mt) with
  | (some df, logs) =>
    if !df.isEmptyDF then (acc.1 ++ [(mt, df)], acc.2 ++ logs)
    else (acc.1, acc.2 ++ logs)
  | (none, logs) => (acc.1, acc.2 ++ logs)

/-- Embedding of the measure-type loop inside
`fetch_and_merge_lineups` for one `(season-type, group-size, per-mode)`
combo: fetch each measure type in order, keeping the non-`None`,
non-empty frames in a dict (insertion order), accumulating the logs. -/
def fetchMeasureFrames {E : Type} (oracle : String → Nat → Except E (List DF))
    (mts : List String) : List (String × DF) × List FetchLog :=
  mts.foldl (fetchStep oracle) ([], [])

/-- Embedding of the fetch-and-merge body of `fetch_and_merge_lineups`
for one combo: fetch all measure types of `config.MEASURE_TYPES`, then
merge the collected frames on `GROUP_ID` (skipping the merge when
nothing was collected). -/
def fetchAndMergeCombo {E : Type} (oracle : String → Nat → Except E (List DF)) :
    DF × (List FetchLog × List MergeLog) :=
  let mf := fetchMeasureFrames oracle MEASURE_TYPES
  if mf.1.isEmpty then (emptyDF, (mf.2, []))
  else
    let m := merge_measure_types (mf.1.map (fun p => (p.1, some p.2))) "GROUP_ID"
    (m.1, (mf.2, m.2))

/-! ### Key-column lemmas for the outer merge -/

theorem contains_iff {α : Type} [BEq α] [LawfulBEq α] (l : List α) (a : α) :
    l.contains a = true ↔ a ∈ l := by
  simp

theorem keyCells_selectCols (df : DF) (cs : List String) (key : String)
    (h : key ∈ cs) :
    keyCells (selectCols df cs) key = keyCells df key := by
  simp only [keyCells, selectCols, List.map_map]
  refine List.map_congr_left ?_
  intro r _
  simp [Function.comp, h]

theorem joinMatches_key (key : String) (l r : DF) (lr : Row)
    (hkey : key ∈ l.cols) :
    ∀ w ∈ joinMatches key l r lr, w key = lr key := by
  intro w hw
  simp only [joinMatches] at hw
  by_cases hms : (r.rows.filter (fun rr => rr key == lr key)).isEmpty
  · rw [if_pos hms] at hw
    simp only [List.mem_singleton] at hw
    subst hw
    simp [hkey]
  · rw [if_neg hms] at hw
    rw [List.mem_map] at hw
    obtain ⟨rr, hrr, rfl⟩ := hw
    simp [hkey]

theorem joinMatches_ne_nil (key : String) (l r : DF) (lr : Row) :
    joinMatches key l r lr ≠ [] := by
  simp only [joinMatches]
  by_cases hms : (r.rows.filter (fun rr => rr key == lr key)).isEmpty
  · rw [if_pos hms]
    simp
  · rw [if_neg hms]
    rw [List.isEmpty_iff] at hms
    simp [hms]

theorem mem_key_leftJoinRows (key : String) (l r : DF)
    (hkey : key ∈ l.cols) (v : Cell) :
    (∃ w ∈ leftJoinRows key l r, w key = v) ↔ ∃ lr ∈ l.rows, lr key = v := by
  constructor
  · rintro ⟨w, hw, rfl⟩
    rw [leftJoinRows, List.mem_flatMap] at hw
    obtain ⟨lr, hlr, hw⟩ := hw
    exact ⟨lr, hlr, (joinMatches_key key l r lr hkey w hw).symm⟩
  · rintro ⟨lr, hlr, rfl⟩
    obtain ⟨w, hw⟩ := List.exists_mem_of_ne_nil _ (joinMatches_ne_nil key l r lr)
    refine ⟨w, ?_, joinMatches_key key l r lr hkey w hw⟩
    rw [leftJoinRows, List.mem_flatMap]
    exact ⟨lr, hlr, hw⟩

theorem mem_key_rightOnlyRows (key : String) (l r : DF) (v : Cell) :
    (∃ w ∈ rightOnlyRows key l r, w key = v) ↔
      ∃ rr ∈ r.rows,
        (l.rows.any (fun lr => lr key == rr key)) = false ∧ rr key = v := by
  constructor
  · rintro ⟨w, hw, rfl⟩
    rw [rightOnlyRows, List.mem_map] at hw
    obtain ⟨rr, hrr, rfl⟩ := hw
    rw [List.mem_filter] at hrr
    refine ⟨rr, hrr.1, ?_, by simp⟩
    simpa using hrr.2
  · rintro ⟨rr, hrr, hany, rfl⟩
    refine ⟨fun c => if c == key then rr key
                     else if l.cols.contains c then none else rr c, ?_, ?_⟩
    · rw [rightOnlyRows, List.mem_map]
      exact ⟨rr, List.mem_filter.mpr ⟨hrr, by simp [hany]⟩, rfl⟩
    · simp

theorem keyCells_merge_split (key : String) (l r : DF) :
    keyCells (pd_merge_outer key l r) key =
      (leftJoinRows key l r).map (fun w => w key) ++
      (rightOnlyRows key l r).map (fun w => w key) := by
  simp [keyCells, pd_merge_outer]

theorem mem_keyCells_merge (key : String) (l r : DF)
    (hkey : key ∈ l.cols) (v : Cell) :
    v ∈ keyCells (pd_merge_outer key l r) key ↔
      v ∈ keyCells l key ∨ v ∈ keyCells r key := by
  rw [keyCells_merge_split, List.mem_append]
  constructor
  · rintro (h | h)
    · rw [List.mem_map] at h
      obtain ⟨w, hw, hwk⟩ := h
      obtain ⟨lr, hlr, hk⟩ := (mem_key_leftJoinRows key l r hkey v).mp ⟨w, hw, hwk⟩
      exact Or.inl (List.mem_map.mpr ⟨lr, hlr, hk⟩)
    · rw [List.mem_map] at h
      obtain ⟨w, hw, hwk⟩ := h
      obtain ⟨rr, hrr, _, hk⟩ := (mem_key_rightOnlyRows key l r v).mp ⟨w, hw, hwk⟩
      exact Or.inr (List.mem_map.mpr ⟨rr, hrr, hk⟩)
  · rintro (h | h)
    · rw [keyCells, List.mem_map] at h
      obtain ⟨lr, hlr, hk⟩ := h
      obtain ⟨w, hw, hwk⟩ := (mem_key_leftJoinRows key l r hkey v).mpr ⟨lr, hlr, hk⟩
      exact Or.inl (List.mem_map.mpr ⟨w, hw, hwk⟩)
    · rw [keyCells, List.mem_map] at h
      obtain ⟨rr, hrr, hk⟩ := h
      by_cases hany : (l.rows.any (fun lr => lr key == rr key)) = true
      · rw [List.any_eq_true] at hany
        obtain ⟨lr, hlr, hbeq⟩ := hany
        have heq : lr key = rr key := eq_of_beq hbeq
        obtain ⟨w, hw, hwk⟩ :=
          (mem_key_leftJoinRows key l r hkey v).mpr ⟨lr, hlr, heq.trans hk⟩
        exact Or.inl (List.mem_map.mpr ⟨w, hw, hwk⟩)
      · have hfalse : (l.rows.any (fun lr => lr key == rr key)) = false :=
          Bool.not_eq_true _ ▸ eq_false_of_ne_true hany
        obtain ⟨w, hw, hwk⟩ :=
          (mem_key_rightOnlyRows key l r v).mpr ⟨rr, hrr, hfalse, hk⟩
        exact Or.inr (List.mem_map.mpr ⟨w, hw, hwk⟩)

theorem key_mem_merge_cols (key : String) (l r : DF) (h : key ∈ l.cols) :
    key ∈ (pd_merge_outer key l r).cols := by
  simp [pd_merge_outer, h]

theorem fold_merge_mem (key : String) :
    ∀ (fs : List DF) (acc : DF), (∀ f ∈ fs, key ∈ f.cols) → key ∈ acc.cols →
      ∀ v, (v ∈ keyCells (fs.foldl (fun a g => pd_merge_outer key a g) acc) key ↔
        v ∈ keyCells acc key ∨ ∃ f ∈ fs, v ∈ keyCells f key) := by
  intro fs
  induction fs with
  | nil => intro acc _ _ v; simp
  | cons g gs ih =>
    intro acc hfs hacc v
    have hg : key ∈ g.cols := hfs g (List.mem_cons_self g gs)
    have hacc2 : key ∈ (pd_merge_outer key acc g).cols :=
      key_mem_merge_cols key acc g hacc
    rw [List.foldl_cons,
      ih (pd_merge_outer key acc g) (fun f hf => hfs f (List.mem_cons_of_mem g hf))
        hacc2 v,
      mem_keyCells_merge key acc g hacc v]
    simp only [List.exists_mem_cons_iff]
    tauto

theorem reduceMerge_mem (key : String) (fs : List DF)
    (hfs : ∀ f ∈ fs, key ∈ f.cols) (hne : fs ≠ []) (v : Cell) :
    v ∈ keyCells (reduceMerge key fs) key ↔ ∃ f ∈ fs, v ∈ keyCells f key := by
  cases fs with
  | nil => exact absurd rfl hne
  | cons f gs =>
    rw [reduceMerge,
      fold_merge_mem key gs f (fun g hg => hfs g (List.mem_cons_of_mem f hg))
        (hfs f (List.mem_cons_self f gs)) v]
    simp only [List.exists_mem_cons_iff]

/-! ### Selection-loop lemmas for `merge_measure_types` -/

theorem mergeStep_some_kept (key : String) (st : MergeState) (mt : String)
    (df : DF) (hne : df.isEmptyDF = false) (hkey : key ∈ df.cols) :
    mergeStep key st (mt, some df) =
      ⟨st.frames ++
         [selectCols df
           (df.cols.filter (fun c => !(st.seen.contains c) || c == key))],
       st.seen ++ df.cols.filter (fun c => !(st.seen.contains c) || c == key),
       st.logs⟩ := by
  have hkc : key ∈ df.cols.filter (fun c => !(st.seen.contains c) || c == key) := by
    rw [List.mem_filter]
    exact ⟨hkey, by simp⟩
  have hcont :
      (df.cols.filter (fun c => !(st.seen.contains c) || c == key)).contains key
        = true := (contains_iff _ _).mpr hkc
  have hemp :
      (df.cols.filter (fun c => !(st.seen.contains c) || c == key)).isEmpty
        = false := by
    rw [List.isEmpty_eq_false_iff_exists_mem]
    exact ⟨key, hkc⟩
  simp only [mergeStep]
  rw [hne, hemp, hcont]
  simp

theorem mergeStep_frames_cases (key : String) (st : MergeState)
    (e : String × Option DF) :
    (mergeStep key st e).frames = st.frames ∨
    ∃ df cs, e.2 = some df ∧ key ∈ cs ∧
      (mergeStep key st e).frames = st.frames ++ [selectCols df cs] := by
  obtain ⟨mt, oe⟩ := e
  cases oe with
  | none => exact Or.inl rfl
  | some df =>
    simp only [mergeStep]
    by_cases hne : df.isEmptyDF = true
    · rw [if_pos hne]
      exact Or.inl rfl
    · rw [if_neg hne]
      by_cases hg :
          ((df.cols.filter (fun c => !(st.seen.contains c) || c == key)).isEmpty
            || !((df.cols.filter
              (fun c => !(st.seen.contains c) || c == key)).contains key)) = true
      · rw [if_pos hg]
        exact Or.inl rfl
      · rw [if_neg hg]
        refine Or.inr ⟨df, _, rfl, ?_, rfl⟩
        have hcont : (df.cols.filter
            (fun c => !(st.seen.contains c) || c == key)).contains key = true := by
          by_contra hc
          have hcf : (df.cols.filter
              (fun c => !(st.seen.contains c) || c == key)).contains key = false :=
            Bool.eq_false_iff.mpr hc
          exact hg (by rw [hcf]; simp)
        exact (contains_iff _ _).mp hcont

theorem fold_frames_key_mem (key : String) :
    ∀ (d : List (String × Option DF)) (st : MergeState),
      (∀ f ∈ st.frames, key ∈ f.cols) →
      ∀ f ∈ (d.foldl (mergeStep key) st).frames, key ∈ f.cols := by
  intro d
  induction d with
  | nil => intro st h; exact h
  | cons e rest ih =>
    intro st h
    rw [List.foldl_cons]
    apply ih
    intro f hf
    rcases mergeStep_frames_cases key st e with hcase | ⟨df, cs, _, hkcs, hcase⟩
    · rw [hcase] at hf
      exact h f hf
    · rw [hcase, List.mem_append] at hf
      rcases hf with hf | hf
      · exact h f hf
      · rw [List.mem_singleton] at hf
        subst hf
        exact hkcs

theorem fold_frames_keys (key : String) :
    ∀ (d : List (String × Option DF)) (st : MergeState),
      (∀ e ∈ d, ∃ df, e.2 = some df ∧ df.isEmptyDF = false ∧ key ∈ df.cols) →
      ∀ v, ((∃ f ∈ (d.foldl (mergeStep key) st).frames, v ∈ keyCells f key) ↔
            (∃ f ∈ st.frames, v ∈ keyCells f key) ∨
            (∃ e ∈ d, ∃ df, e.2 = some df ∧ v ∈ keyCells df key)) := by
  intro d
  induction d with
  | nil => intro st _ v; simp
  | cons e rest ih =>
    intro st hd v
    obtain ⟨df, he2, hne, hkey⟩ := hd e (List.mem_cons_self e rest)
    obtain ⟨mt, oe⟩ := e
    have he2' : oe = some df := he2
    subst he2'
    have hsel : keyCells (selectCols df
        (df.cols.filter (fun c => !(st.seen.contains c) || c == key))) key =
        keyCells df key := by
      apply keyCells_selectCols
      rw [List.mem_filter]
      exact ⟨hkey, by simp⟩
    rw [List.foldl_cons, mergeStep_some_kept key st mt df hne hkey,
      ih _ (fun x hx => hd x (List.mem_cons_of_mem _ hx)) v]
    constructor
    · rintro (⟨f, hf, hv⟩ | ⟨x, hx, df2, hdf2, hv⟩)
      · rcases List.mem_append.mp hf with hf2 | hf2
        · exact Or.inl ⟨f, hf2, hv⟩
        · rw [List.mem_singleton] at hf2
          subst hf2
          exact Or.inr ⟨(mt, some df), List.mem_cons_self _ _, df, rfl, hsel ▸ hv⟩
      · exact Or.inr ⟨x, List.mem_cons_of_mem _ hx, df2, hdf2, hv⟩
    · rintro (⟨f, hf, hv⟩ | ⟨x, hx, df2, hdf2, hv⟩)
      · exact Or.inl ⟨f, List.mem_append.mpr (Or.inl hf), hv⟩
      · rcases List.mem_cons.mp hx with hx2 | hx2
        · subst hx2
          have hdf2' : df2 = df := by
            simpa using hdf2.symm
          subst hdf2'
          exact Or.inl ⟨_, List.mem_append.mpr (Or.inr (List.mem_singleton.mpr rfl)),
            hsel.symm ▸ hv⟩
        · exact Or.inr ⟨x, hx2, df2, hdf2, hv⟩

theorem fold_frames_length_mono (key : String) :
    ∀ (d : List (String × Option DF)) (st : MergeState),
      st.frames.length ≤ ((d.foldl (mergeStep key) st).frames).length := by
  intro d
  induction d with
  | nil => intro st; exact Nat.le_refl _
  | cons e rest ih =>
    intro st
    rw [List.foldl_cons]
    refine Nat.le_trans ?_ (ih (mergeStep key st e))
    rcases mergeStep_frames_cases key st e with hcase | ⟨df, cs, _, _, hcase⟩
    · rw [hcase]
    · rw [hcase]
      simp

theorem merge_measure_types_keys (d : List (String × Option DF)) (key : String)
    (hd : ∀ e ∈ d, ∃ df, e.2 = some df ∧ df.isEmptyDF = false ∧ key ∈ df.cols)
    (v : Cell) :
    v ∈ keyCells (merge_measure_types d key).1 key ↔
      ∃ e ∈ d, ∃ df, e.2 = some df ∧ v ∈ keyCells df key := by
  cases d with
  | nil => simp [merge_measure_types, keyCells, emptyDF]
  | cons e rest =>
    unfold merge_measure_types
    rw [if_neg (by simp)]
    have hmemkeys := fold_frames_keys key (e :: rest) ⟨[], [key], []⟩ hd v
    have hcols := fold_frames_key_mem key (e :: rest) ⟨[], [key], []⟩
      (by intro f hf; simp at hf)
    have hlen : 1 ≤ (((e :: rest).foldl (mergeStep key)
        ⟨[], [key], []⟩).frames).length := by
      obtain ⟨df, he2, hne, hkey⟩ := hd e (List.mem_cons_self e rest)
      obtain ⟨mt, oe⟩ := e
      have he2' : oe = some df := he2
      subst he2'
      rw [List.foldl_cons, mergeStep_some_kept key _ mt df hne hkey]
      refine Nat.le_trans ?_ (fold_frames_length_mono key rest _)
      simp
    have hne : (((e :: rest).foldl (mergeStep key)
        ⟨[], [key], []⟩).frames) ≠ [] := by
      intro hnil
      rw [hnil] at hlen
      simp at hlen
    have hfe : (((e :: rest).foldl (mergeStep key)
        ⟨[], [key], []⟩).frames).isEmpty = false := by
      rw [List.isEmpty_eq_false_iff_exists_mem]
      exact List.exists_mem_of_ne_nil _ hne
    simp only [hfe, Bool.false_eq_true, if_false]
    rw [reduceMerge_mem key _ hcols hne v, hmemkeys]
    simp

/-! ### Lineup-fetch lemmas -/

theorem fetchStep_frames_cases {E : Type}
    (oracle : String → Nat → Except E (List DF))
    (acc : List (String × DF) × List FetchLog) (mt : String) :
    (fetchStep oracle acc mt).1 = acc.1 ∨
    ∃ df, (fetchStep oracle acc mt).1 = acc.1 ++ [(mt, df)] ∧
      df.isEmptyDF = false := by
  unfold fetchStep
  rcases fetch_all_lineups mt (oracle mt) with ⟨odf, logs⟩
  cases odf with
  | none => exact Or.inl rfl
  | some df =>
    dsimp only
    by_cases hb : df.isEmptyDF
    · rw [hb]
      exact Or.inl rfl
    · rw [Bool.not_eq_true] at hb
      rw [hb]
      exact Or.inr ⟨df, rfl, hb⟩

theorem fetchFold_frames_nonempty {E : Type}
    (oracle : String → Nat → Except E (List DF)) :
    ∀ (mts : List String) (acc : List (String × DF) × List FetchLog),
      (∀ p ∈ acc.1, p.2.isEmptyDF = false) →
      ∀ p ∈ (mts.foldl (fetchStep oracle) acc).1, p.2.isEmptyDF = false := by
  intro mts
  induction mts with
  | nil => intro acc h; exact h
  | cons mt rest ih =>
    intro acc h
    rw [List.foldl_cons]
    apply ih
    intro p hp
    rcases fetchStep_frames_cases oracle acc mt with hcase | ⟨df, hcase, hdf⟩
    · rw [hcase] at hp
      exact h p hp
    · rw [hcase, List.mem_append] at hp
      rcases hp with hp | hp
      · exact h p hp
      · rw [List.mem_singleton] at hp
        subst hp
        exact hdf

theorem fetchMeasureFrames_nonempty {E : Type}
    (oracle : String → Nat → Except E (List DF)) (mts : List String) :
    ∀ p ∈ (fetchMeasureFrames oracle mts).1, p.2.isEmptyDF = false :=
  fetchFold_frames_nonempty oracle mts ([], []) (by intro p hp; simp at hp)

/-- C1 (amended): for one combo, the lineup fetch-and-merge has
outer-join (union) semantics on `GROUP_ID`: assuming every
successfully-fetched frame carries the `GROUP_ID` column, a key value
appears in the merged table if and only if it appears in at least one
successfully-fetched (non-empty) measure type's table. -/
theorem lineup_merge_outer_union {E : Type}
    (oracle : String → Nat → Except E (List DF))
    (hcols : ∀ p ∈ (fetchMeasureFrames oracle MEASURE_TYPES).1,
      "GROUP_ID" ∈ p.2.cols) (v : Cell) :
    v ∈ keyCells (fetchAndMergeCombo oracle).1 "GROUP_ID" ↔
      ∃ p ∈ (fetchMeasureFrames oracle MEASURE_TYPES).1,
        v ∈ keyCells p.2 "GROUP_ID" := by
  unfold fetchAndMergeCombo
  by_cases hmf : (fetchMeasureFrames oracle MEASURE_TYPES).1.isEmpty = true
  · rw [List.isEmpty_iff] at hmf
    simp [hmf, keyCells, emptyDF]
  · have hmf2 : (fetchMeasureFrames oracle MEASURE_TYPES).1.isEmpty = false :=
      Bool.eq_false_iff.mpr hmf
    have hd : ∀ e ∈ (fetchMeasureFrames oracle MEASURE_TYPES).1.map
        (fun p => (p.1, some p.2)), ∃ df, e.2 = some df ∧
        df.isEmptyDF = false ∧ "GROUP_ID" ∈ df.cols := by
      intro e he
      rw [List.mem_map] at he
      obtain ⟨p, hp, rfl⟩ := he
      exact ⟨p.2, rfl, fetchMeasureFrames_nonempty oracle MEASURE_TYPES p hp,
        hcols p hp⟩
    have hspec := merge_measure_types_keys _ "GROUP_ID" hd v
    simp only [hmf2, Bool.false_eq_true, if_false]
    rw [hspec]
    constructor
    · rintro ⟨e, he, df, hdf, hv⟩
      rw [List.mem_map] at he
      obtain ⟨p, hp, rfl⟩ := he
      have hdp : df = p.2 := by simpa using hdf.symm
      subst hdp
      exact ⟨p, hp, hv⟩
    · rintro ⟨p, hp, hv⟩
      exact ⟨(p.1, some p.2), List.mem_map.mpr ⟨p, hp, rfl⟩, p.2, rfl, hv⟩

/-- Base measure-type table used for the C1 scenario: keys 1, 2, 3. -/
def dfBaseC1 : DF :=
  ⟨["GROUP_ID", "X"],
   [fun c => if c = "GROUP_ID" then some 1 else if c = "X" then some 10 else none,
    fun c => if c = "GROUP_ID" then some 2 else if c = "X" then some 20 else none,
    fun c => if c = "GROUP_ID" then some 3 else if c = "X" then some 30 else none]⟩

/-- Advanced measure-type table used for the C1 scenario: keys 2, 3, 4. -/
def dfAdvC1 : DF :=
  ⟨["GROUP_ID", "Y"],
   [fun c => if c = "GROUP_ID" then some 2 else if c = "Y" then some 200 else none,
    fun c => if c = "GROUP_ID" then some 3 else if c = "Y" then some 300 else none,
    fun c => if c = "GROUP_ID" then some 4 else if c = "Y" then some 400 else none]⟩

/-- Oracle of the C1 scenario: Base and Advanced succeed on the first
attempt, every other measure type always fails. -/
def oracleC1 : String → Nat → Except String (List DF) := fun mt _ =>
  if mt = "Base" then Except.ok [dfBaseC1]
  else if mt = "Advanced" then Except.ok [dfAdvC1]
  else Except.error "timeout"

/-- C1 counterexample: with Base returning keys 1,2,3 and Advanced
returning keys 2,3,4, the merged lineup table contains keys 1,2,3,4 —
the key union, not the intersection 2,3 — so the claimed inner-join
semantics (a key appears iff it appears in every fetched table) is
false: key 1 is in the merged table but not in the Advanced table. -/
theorem lineup_merge_not_inner_counterexample :
    keyCells (fetchAndMergeCombo oracleC1).1 "GROUP_ID" =
      [some 1, some 2, some 3, some 4] ∧
    ¬ (∀ v : Cell, v ∈ keyCells (fetchAndMergeCombo oracleC1).1 "GROUP_ID" ↔
        (v ∈ keyCells dfBaseC1 "GROUP_ID" ∧ v ∈ keyCells dfAdvC1 "GROUP_ID")) := by
  constructor
  · decide
  · intro h
    have h1 := (h (some 1)).mp (by decide)
    exact absurd h1.2 (by decide)

theorem lineup_merge_outer_union_witness :
    some 1 ∈ keyCells (fetchAndMergeCombo oracleC1).1 "GROUP_ID" ↔
      ∃ p ∈ (fetchMeasureFrames oracleC1 MEASURE_TYPES).1,
        some 1 ∈ keyCells p.2 "GROUP_ID" :=
  lineup_merge_outer_union oracleC1 (by decide) (some 1)

/-! ### Missing-merge-key behaviour (`merge_measure_types` drop path) -/

theorem mergeStep_missing_key (key mt : String) (B : DF) (st : MergeState)
    (hrows : B.rows ≠ []) (hcols : B.cols ≠ []) (hkey : key ∉ B.cols) :
    mergeStep key st (mt, some B) = st := by
  have hne : B.isEmptyDF = false := by
    simp [DF.isEmptyDF, hrows, hcols]
  have hcont : (B.cols.filter
      (fun c => !(st.seen.contains c) || c == key)).contains key = false := by
    rw [Bool.eq_false_iff]
    intro hc
    have hmem := (contains_iff _ _).mp hc
    rw [List.mem_filter] at hmem
    exact hkey hmem.1
  have hguard : ((B.cols.filter
      (fun c => !(st.seen.contains c) || c == key)).isEmpty
      || !((B.cols.filter
        (fun c => !(st.seen.contains c) || c == key)).contains key)) = true := by
    rw [hcont]
    simp
  simp only [mergeStep]
  rw [hne, hguard]
  simp

/-- C9 (amended): a source table that lacks the merge-key column is
dropped entirely — the merger's output, including its log events, is
exactly as if the table had not been passed at all, so the drop is
silent (not logged, unlike the claim's wording) and the merge still
succeeds over the remaining tables; an empty input mapping yields an
empty table. -/
theorem merger_missing_key_dropped_silently (key mt : String)
    (pre suf : List (String × Option DF)) (B : DF)
    (hrows : B.rows ≠ []) (hcols : B.cols ≠ []) (hkey : key ∉ B.cols) :
    merge_measure_types (pre ++ (mt, some B) :: suf) key =
      merge_measure_types (pre ++ suf) key ∧
    merge_measure_types ([] : List (String × Option DF)) key = (emptyDF, []) := by
  refine ⟨?_, rfl⟩
  have hfold : (pre ++ (mt, some B) :: suf).foldl (mergeStep key)
      ⟨[], [key], []⟩ = (pre ++ suf).foldl (mergeStep key) ⟨[], [key], []⟩ := by
    rw [List.foldl_append, List.foldl_cons,
      mergeStep_missing_key key mt B _ hrows hcols hkey, ← List.foldl_append]
  rcases hps : pre ++ suf with _ | ⟨x, xs⟩
  · obtain ⟨hpre, hsuf⟩ := List.append_eq_nil.mp hps
    subst hpre
    subst hsuf
    have h1 : mergeStep key ⟨[], [key], []⟩ (mt, some B) = ⟨[], [key], []⟩ :=
      mergeStep_missing_key key mt B _ hrows hcols hkey
    unfold merge_measure_types
    simp [h1]
  · have hA : (pre ++ (mt, some B) :: suf).isEmpty = false := by simp
    have hB : (pre ++ suf).isEmpty = false := by rw [hps]; simp
    unfold merge_measure_types
    rw [hps] at hfold hB
    simp only [hA, hB, Bool.false_eq_true, if_false, hps, hfold]

/-- Frame with no `GROUP_ID` column, used in the C9 scenario. -/
def noKeyDF : DF :=
  ⟨["Z", "W"],
   [fun c => if c = "Z" then some 5 else if c = "W" then some 6 else none]⟩

/-- C9 counterexample: merging a normal Base frame with a frame lacking
the merge key drops the latter (its columns are absent from the output)
and the merge succeeds, but — contrary to the claim — the drop is NOT
logged: the emitted log is exactly the final merged-info line, with no
skip entry for the dropped table. -/
theorem merger_missing_key_not_logged_counterexample :
    (merge_measure_types [("Base", some dfBaseC1), ("Advanced", some noKeyDF)]
        "GROUP_ID").2 = [MergeLog.mergedInfo 1 3 2] ∧
    "Z" ∉ (merge_measure_types [("Base", some dfBaseC1), ("Advanced", some noKeyDF)]
        "GROUP_ID").1.cols ∧
    ¬ ∃ log ∈ (merge_measure_types
        [("Base", some dfBaseC1), ("Advanced", some noKeyDF)] "GROUP_ID").2,
      log = MergeLog.skippedEmpty "Advanced" := by
  refine ⟨by decide, by decide, by decide⟩

theorem merger_missing_key_dropped_silently_witness :
    merge_measure_types [("Base", some dfBaseC1), ("Advanced", some noKeyDF)]
        "GROUP_ID" =
      merge_measure_types [("Base", some dfBaseC1)] "GROUP_ID" ∧
    merge_measure_types ([] : List (String × Option DF)) "GROUP_ID" =
      (emptyDF, []) :=
  merger_missing_key_dropped_silently "GROUP_ID" "Advanced"
    [("Base", some dfBaseC1)] [] noKeyDF (by simp [noKeyDF]) (by decide) (by decide)

/-! ### First-writer-wins (C5) -/

theorem joinMatches_left_col (key : String) (l r : DF) (lr : Row) (c : String)
    (hc : c ∈ l.cols) :
    ∀ w ∈ joinMatches key l r lr, w c = lr c := by
  intro w hw
  simp only [joinMatches] at hw
  by_cases hms : (r.rows.filter (fun rr => rr key == lr key)).isEmpty
  · rw [if_pos hms] at hw
    simp only [List.mem_singleton] at hw
    subst hw
    simp [hc]
  · rw [if_neg hms] at hw
    rw [List.mem_map] at hw
    obtain ⟨rr, hrr, rfl⟩ := hw
    simp [hc]

/-- C5: with tables `A` (columns K,X) and `B` (columns K,X,Y) declared
in order `[A, B]` and both non-empty, the merged table has columns
K,X,Y, and every row's `X` value comes from `A` (first writer wins):
it equals the `X` of a matching `A` row when the row's key occurs in
`A`, and is NaN (never `B`'s `X`) when it does not. -/
theorem merger_first_writer_wins (aRows bRows : List Row)
    (ha : aRows ≠ []) (hb : bRows ≠ []) :
    (merge_measure_types
        [("A", some ⟨["K", "X"], aRows⟩), ("B", some ⟨["K", "X", "Y"], bRows⟩)]
        "K").1.cols = ["K", "X", "Y"] ∧
    ∀ mr ∈ (merge_measure_types
        [("A", some ⟨["K", "X"], aRows⟩), ("B", some ⟨["K", "X", "Y"], bRows⟩)]
        "K").1.rows,
      (∃ ar ∈ aRows, mr "K" = ar "K" ∧ mr "X" = ar "X") ∨
      ((∀ ar ∈ aRows, ar "K" ≠ mr "K") ∧ mr "X" = none) := by
  have hrA : aRows.isEmpty = false := by
    rw [List.isEmpty_eq_false_iff_exists_mem]
    exact List.exists_mem_of_ne_nil _ ha
  have hrB : bRows.isEmpty = false := by
    rw [List.isEmpty_eq_false_iff_exists_mem]
    exact List.exists_mem_of_ne_nil _ hb
  have hm1 : (merge_measure_types
      [("A", some ⟨["K", "X"], aRows⟩), ("B", some ⟨["K", "X", "Y"], bRows⟩)]
      "K").1 =
      pd_merge_outer "K" (selectCols ⟨["K", "X"], aRows⟩ ["K", "X"])
        (selectCols ⟨["K", "X", "Y"], bRows⟩ ["K", "Y"]) := by
    simp [merge_measure_types, mergeStep, DF.isEmptyDF, hrA, hrB, reduceMerge]
  rw [hm1]
  constructor
  · rfl
  · intro mr hmr
    rw [show (pd_merge_outer "K" (selectCols ⟨["K", "X"], aRows⟩ ["K", "X"])
        (selectCols ⟨["K", "X", "Y"], bRows⟩ ["K", "Y"])).rows =
        leftJoinRows "K" (selectCols ⟨["K", "X"], aRows⟩ ["K", "X"])
          (selectCols ⟨["K", "X", "Y"], bRows⟩ ["K", "Y"]) ++
        rightOnlyRows "K" (selectCols ⟨["K", "X"], aRows⟩ ["K", "X"])
          (selectCols ⟨["K", "X", "Y"], bRows⟩ ["K", "Y"]) from rfl,
      List.mem_append] at hmr
    rcases hmr with hmr | hmr
    · left
      rw [leftJoinRows, List.mem_flatMap] at hmr
      obtain ⟨lr, hlr, hmr⟩ := hmr
      rw [show (selectCols ⟨["K", "X"], aRows⟩ ["K", "X"]).rows =
          aRows.map (fun r c => if (["K", "X"] : List String).contains c
            then r c else none) from rfl, List.mem_map] at hlr
      obtain ⟨ar, har, rfl⟩ := hlr
      have hK := joinMatches_left_col "K" _ _ _ "K" (by simp [selectCols]) mr hmr
      have hX := joinMatches_left_col "K" _ _ _ "X" (by simp [selectCols]) mr hmr
      refine ⟨ar, har, ?_, ?_⟩
      · rw [hK]
        simp
      · rw [hX]
        simp
    · right
      rw [rightOnlyRows, List.mem_map] at hmr
      obtain ⟨rr, hrr, rfl⟩ := hmr
      rw [List.mem_filter] at hrr
      obtain ⟨hrr1, hrr2⟩ := hrr
      have hanyf : ((selectCols ⟨["K", "X"], aRows⟩ ["K", "X"]).rows.any
          (fun lr => lr "K" == rr "K")) = false := by
        simpa using hrr2
      rw [List.any_eq_false] at hanyf
      constructor
      · intro ar har
        have hmem : (fun c => if (["K", "X"] : List String).contains c
            then ar c else none) ∈
            (selectCols ⟨["K", "X"], aRows⟩ ["K", "X"]).rows :=
          List.mem_map.mpr ⟨ar, har, rfl⟩
        have hne := hanyf _ hmem
        simp only [beq_iff_eq] at hne
        simpa using hne
      · simp [selectCols]

/-- Concrete `A` rows for the C5 scenario: keys 1, 2 with X 10, 20. -/
def aRowsC5 : List Row :=
  [fun c => if c = "K" then some 1 else if c = "X" then some 10 else none,
   fun c => if c = "K" then some 2 else if c = "X" then some 20 else none]

/-- Concrete `B` rows for the C5 scenario: keys 2, 3 with clashing X
values 999, 888 that must not survive the merge. -/
def bRowsC5 : List Row :=
  [fun c => if c = "K" then some 2 else if c = "X" then some 999
            else if c = "Y" then some 7 else none,
   fun c => if c = "K" then some 3 else if c = "X" then some 888
            else if c = "Y" then some 8 else none]

theorem merger_first_writer_wins_witness :
    (merge_measure_types
        [("A", some ⟨["K", "X"], aRowsC5⟩),
         ("B", some ⟨["K", "X", "Y"], bRowsC5⟩)] "K").1.cols =
      ["K", "X", "Y"] ∧
    ∀ mr ∈ (merge_measure_types
        [("A", some ⟨["K", "X"], aRowsC5⟩),
         ("B", some ⟨["K", "X", "Y"], bRowsC5⟩)] "K").1.rows,
      (∃ ar ∈ aRowsC5, mr "K" = ar "K" ∧ mr "X" = ar "X") ∨
      ((∀ ar ∈ aRowsC5, ar "K" ≠ mr "K") ∧ mr "X" = none) :=
  merger_first_writer_wins aRowsC5 bRowsC5 (by simp [aRowsC5]) (by simp [bRowsC5])

/-! ### Partial failure of the parameter sweep (C6) -/

theorem retry_first_ok {E R : Type} (call : Nat → Except E R) (N : Nat) (r : R)
    (hN : 1 ≤ N) (h0 : call 0 = Except.ok r) :
    api_call_with_retry call N = (Except.ok r, 1) := by
  have h := apiCallGo_ok_of_failures call N r 0 0 (by omega)
    (by intro i h1 h2; exact absurd h2 (by omega))
    (by simpa using h0)
  rw [api_call_with_retry, List.range_eq_range']
  simpa using h

theorem fetch_all_lineups_ok {E : Type} (mt : String)
    (attempts : Nat → Except E (List DF)) (d : DF)
    (h0 : attempts 0 = Except.ok [d]) (hne : d.isEmptyDF = false) :
    fetch_all_lineups mt attempts =
      (some d, [FetchLog.gotRows mt d.rows.length]) := by
  have hc : (api_call_with_retry attempts API_RETRIES).1 = Except.ok [d] := by
    rw [retry_first_ok attempts API_RETRIES [d] (by decide) h0]
  unfold fetch_all_lineups
  rw [hc]
  dsimp only
  rw [hne]
  simp

theorem fetch_all_lineups_fail {E : Type} (mt : String)
    (attempts : Nat → Except E (List DF))
    (hf : ∀ n, ∃ e, attempts n = Except.error e) :
    fetch_all_lineups mt attempts = (none, [FetchLog.fetchFailed mt]) := by
  obtain ⟨e, he⟩ := apiCallGo_all_fail attempts API_RETRIES hf API_RETRIES 0
    (by decide) (by omega)
  have hc : (api_call_with_retry attempts API_RETRIES).1 =
      Except.error (some e) := by
    rw [api_call_with_retry, List.range_eq_range']
    rw [he]
  unfold fetch_all_lineups
  rw [hc]

/-- C6: in the measure-type sweep over three parameter points where the
second always raises and the first and third return non-empty frames,
the accumulated output contains exactly the frames of points 1 and 3,
the failing point is caught and logged (not propagated), and exactly
one skipped-point error is logged. -/
theorem fetcher_partial_failure {E : Type}
    (oracle : String → Nat → Except E (List DF)) (a b c : String) (d1 d3 : DF)
    (h1 : oracle a 0 = Except.ok [d1]) (h1e : d1.isEmptyDF = false)
    (h2 : ∀ n, ∃ e, oracle b n = Except.error e)
    (h3 : oracle c 0 = Except.ok [d3]) (h3e : d3.isEmptyDF = false) :
    fetchMeasureFrames oracle [a, b, c] =
      ([(a, d1), (c, d3)],
       [FetchLog.gotRows a d1.rows.length, FetchLog.fetchFailed b,
        FetchLog.gotRows c d3.rows.length]) ∧
    ((fetchMeasureFrames oracle [a, b, c]).2.countP
      (fun l => match l with
        | FetchLog.fetchFailed _ => true
        | _ => false)) = 1 := by
  have hfa := fetch_all_lineups_ok a (oracle a) d1 h1 h1e
  have hfb := fetch_all_lineups_fail b (oracle b) h2
  have hfc := fetch_all_lineups_ok c (oracle c) d3 h3 h3e
  have hmain : fetchMeasureFrames oracle [a, b, c] =
      ([(a, d1), (c, d3)],
       [FetchLog.gotRows a d1.rows.length, FetchLog.fetchFailed b,
        FetchLog.gotRows c d3.rows.length]) := by
    unfold fetchMeasureFrames
    rw [List.foldl_cons, List.foldl_cons, List.foldl_cons, List.foldl_nil]
    simp [fetchStep, hfa, hfb, hfc, h1e, h3e]
  refine ⟨hmain, ?_⟩
  rw [hmain]
  rfl

/-- Successful point 1 of the C6 witness scenario. -/
def dP1 : DF := ⟨["GROUP_ID"], [fun c => if c = "GROUP_ID" then some 1 else none]⟩

/-- Successful point 3 of the C6 witness scenario. -/
def dP3 : DF := ⟨["GROUP_ID"], [fun c => if c = "GROUP_ID" then some 3 else none]⟩

/-- Oracle of the C6 witness scenario: points P1 and P3 succeed on the
first attempt, P2 always raises. -/
def oracleC6 : String → Nat → Except String (List DF) := fun mt _ =>
  if mt = "P1" then Except.ok [dP1]
  else if mt = "P3" then Except.ok [dP3]
  else Except.error "timeout"

theorem fetcher_partial_failure_witness :
    fetchMeasureFrames oracleC6 ["P1", "P2", "P3"] =
      ([("P1", dP1), ("P3", dP3)],
       [FetchLog.gotRows "P1" dP1.rows.length, FetchLog.fetchFailed "P2",
        FetchLog.gotRows "P3" dP3.rows.length]) ∧
    ((fetchMeasureFrames oracleC6 ["P1", "P2", "P3"]).2.countP
      (fun l => match l with
        | FetchLog.fetchFailed _ => true
        | _ => false)) = 1 :=
  fetcher_partial_failure oracleC6 "P1" "P2" "P3" dP1 dP3 rfl rfl
    (fun _ => ⟨"timeout", rfl⟩) rfl rfl

/-! ### Row-count bound of the merger (C8) -/

/-- Concatenation of the key cells of every present source table. -/
def allKeyCells (d : List (String × Option DF)) (key : String) : List Cell :=
  d.flatMap (fun e => match e.2 with
    | some df => keyCells df key
    | none => [])

theorem filter_beq_length_le_one {α β : Type} [BEq β] [LawfulBEq β]
    (l : List α) (f : α → β) (hnd : (l.map f).Nodup) (val : β) :
    (l.filter (fun x => f x == val)).length ≤ 1 := by
  induction l with
  | nil => simp
  | cons x rest ih =>
    rw [List.map_cons, List.nodup_cons] at hnd
    obtain ⟨hx, hrest⟩ := hnd
    by_cases h : (f x == val) = true
    · have hfx : f x = val := eq_of_beq h
      have hnil : rest.filter (fun y => f y == val) = [] := by
        rw [List.filter_eq_nil_iff]
        intro y hy hyv
        apply hx
        rw [hfx, ← eq_of_beq hyv]
        exact List.mem_map_of_mem f hy
      rw [List.filter_cons, if_pos h, hnil]
      simp
    · rw [List.filter_cons, if_neg h]
      exact ih hrest

theorem joinMatches_map_key_nodup (key : String) (l r : DF) (lr : Row)
    (hkey : key ∈ l.cols) (hnd : (keyCells r key).Nodup) :
    (joinMatches key l r lr).map (fun w => w key) = [lr key] := by
  have hlen : (r.rows.filter (fun rr => rr key == lr key)).length ≤ 1 :=
    filter_beq_length_le_one r.rows (fun rr => rr key) hnd (lr key)
  simp only [joinMatches]
  rcases hms : r.rows.filter (fun rr => rr key == lr key) with _ | ⟨rr, rest⟩
  · rw [hms]
    simp [hkey]
  · rw [hms] at hlen ⊢
    have hrest : rest = [] := by
      cases rest with
      | nil => rfl
      | cons y ys => simp at hlen
    subst hrest
    simp [hkey]

theorem filter_map_comm {α β : Type} (xs : List α) (f : α → β) (p : β → Bool) :
    (xs.filter (fun x => p (f x))).map f = (xs.map f).filter p := by
  induction xs with
  | nil => simp
  | cons x rest ih =>
    by_cases h : p (f x) = true
    · simp only [List.filter_cons, h, if_true, List.map_cons, ih]
    · simp [List.filter_cons, h, ih]

theorem flatMap_singleton_eq_map {α β : Type} (l : List α) (f : α → β) :
    l.flatMap (fun x => [f x]) = l.map f := by
  induction l with
  | nil => rfl
  | cons x rest ih => simp [ih]

theorem rightOnlyRows_map_key (key : String) (l r : DF) :
    (rightOnlyRows key l r).map (fun w => w key) =
      (keyCells r key).filter
        (fun v => !(l.rows.any (fun lr => lr key == v))) := by
  unfold rightOnlyRows keyCells
  rw [List.map_map]
  rw [show ((r.rows.filter
        (fun rr => !(l.rows.any (fun lr => lr key == rr key)))).map
      ((fun w => w key) ∘ (fun rr c => if c == key then rr key
        else if l.cols.contains c then none else rr c))) =
      ((r.rows.filter
        (fun rr => !(l.rows.any (fun lr => lr key == rr key)))).map
      (fun rr => rr key)) from List.map_congr_left (fun rr _ => by simp)]
  exact filter_map_comm r.rows (fun rr => rr key)
    (fun v => !(l.rows.any (fun lr => lr key == v)))

theorem keyCells_merge_eq (key : String) (l r : DF) (hkey : key ∈ l.cols)
    (hnd : (keyCells r key).Nodup) :
    keyCells (pd_merge_outer key l r) key =
      keyCells l key ++ (keyCells r key).filter
        (fun v => !(l.rows.any (fun lr => lr key == v))) := by
  rw [keyCells_merge_split]
  congr 1
  · unfold leftJoinRows
    rw [List.map_flatMap]
    have h := fun lr => joinMatches_map_key_nodup key l r lr hkey hnd
    simp only [h]
    rw [flatMap_singleton_eq_map]
    rfl
  · exact rightOnlyRows_map_key key l r

theorem keyCells_merge_nodup (key : String) (l r : DF) (hkey : key ∈ l.cols)
    (hl : (keyCells l key).Nodup) (hr : (keyCells r key).Nodup) :
    (keyCells (pd_merge_outer key l r) key).Nodup := by
  rw [keyCells_merge_eq key l r hkey hr]
  refine List.Nodup.append hl ((List.filter_sublist _).nodup hr) ?_
  intro v hv1 hv2
  rw [List.mem_filter] at hv2
  obtain ⟨lr, hlr, hlv⟩ := List.mem_map.mp hv1
  have hany : (l.rows.any (fun x => x key == v)) = false := by
    simpa using hv2.2
  rw [List.any_eq_false] at hany
  exact hany lr hlr (by rw [hlv]; exact beq_self_eq_true v)

theorem fold_merge_nodup_subset (key : String) (A : List Cell) :
    ∀ (fs : List DF) (acc : DF),
      key ∈ acc.cols → (keyCells acc key).Nodup →
      (∀ v ∈ keyCells acc key, v ∈ A) →
      (∀ f ∈ fs, key ∈ f.cols ∧ (keyCells f key).Nodup ∧
        ∀ v ∈ keyCells f key, v ∈ A) →
      key ∈ (fs.foldl (fun a g => pd_merge_outer key a g) acc).cols ∧
      (keyCells (fs.foldl (fun a g => pd_merge_outer key a g) acc) key).Nodup ∧
      ∀ v ∈ keyCells (fs.foldl (fun a g => pd_merge_outer key a g) acc) key,
        v ∈ A := by
  intro fs
  induction fs with
  | nil => intro acc h1 h2 h3 _; exact ⟨h1, h2, h3⟩
  | cons g gs ih =>
    intro acc h1 h2 h3 hfs
    obtain ⟨hg1, hg2, hg3⟩ := hfs g (List.mem_cons_self g gs)
    rw [List.foldl_cons]
    refine ih (pd_merge_outer key acc g) (key_mem_merge_cols key acc g h1)
      (keyCells_merge_nodup key acc g h1 h2 hg2) ?_
      (fun f hf => hfs f (List.mem_cons_of_mem _ hf))
    intro v hv
    rcases (mem_keyCells_merge key acc g h1 v).mp hv with h | h
    · exact h3 v h
    · exact hg3 v h

theorem keys_sub_allKeyCells (d : List (String × Option DF)) (key : String) :
    ∀ e ∈ d, ∀ df, e.2 = some df →
      ∀ v ∈ keyCells df key, v ∈ allKeyCells d key := by
  intro e he df hdf v hv
  unfold allKeyCells
  rw [List.mem_flatMap]
  refine ⟨e, he, ?_⟩
  rw [hdf]
  exact hv

theorem fold_frames_nodup_subset (key : String) (A : List Cell) :
    ∀ (d : List (String × Option DF)) (st : MergeState),
      (∀ e ∈ d, ∀ df, e.2 = some df → (keyCells df key).Nodup ∧
        ∀ v ∈ keyCells df key, v ∈ A) →
      (∀ f ∈ st.frames, (keyCells f key).Nodup ∧
        ∀ v ∈ keyCells f key, v ∈ A) →
      ∀ f ∈ (d.foldl (mergeStep key) st).frames,
        (keyCells f key).Nodup ∧ ∀ v ∈ keyCells f key, v ∈ A := by
  intro d
  induction d with
  | nil => intro st _ h; exact h
  | cons e rest ih =>
    intro st hd h
    rw [List.foldl_cons]
    apply ih
    · intro x hx df hdf
      exact hd x (List.mem_cons_of_mem _ hx) df hdf
    · intro f hf
      rcases mergeStep_frames_cases key st e with hcase | ⟨df, cs, he2, hkcs, hcase⟩
      · rw [hcase] at hf
        exact h f hf
      · rw [hcase, List.mem_append] at hf
        rcases hf with hf | hf
        · exact h f hf
        · rw [List.mem_singleton] at hf
          subst hf
          have hsel := keyCells_selectCols df cs key hkcs
          obtain ⟨hnd, hsub⟩ := hd e (List.mem_cons_self e rest) df he2
          rw [show keyCells (selectCols df cs) key = keyCells df key from hsel]
          exact ⟨hnd, hsub⟩

/-- C8 (amended): when every present source table has pairwise-distinct
merge-key values, the merged table's row count is at most the number of
distinct key values across all source tables (the size of the key
union). The merger always joins with `how="outer"`, so the inner-join
clause of the claim never applies; without the distinctness assumption
the outer join can exceed both claimed bounds (see the
counterexample). -/
theorem merge_rowcount_bound (d : List (String × Option DF)) (key : String)
    (hd : ∀ e ∈ d, ∀ df, e.2 = some df → (keyCells df key).Nodup) :
    (merge_measure_types d key).1.rows.length ≤
      (allKeyCells d key).dedup.length := by
  by_cases hde : d.isEmpty = true
  · unfold merge_measure_types
    rw [if_pos hde]
    simp [emptyDF]
  · unfold merge_measure_types
    rw [if_neg hde]
    have hframes := fold_frames_nodup_subset key (allKeyCells d key) d
      ⟨[], [key], []⟩
      (fun e he df hdf =>
        ⟨hd e he df hdf, keys_sub_allKeyCells d key e he df hdf⟩)
      (by intro f hf; simp at hf)
    have hcols := fold_frames_key_mem key d ⟨[], [key], []⟩
      (by intro f hf; simp at hf)
    by_cases hfe : ((d.foldl (mergeStep key) ⟨[], [key], []⟩).frames).isEmpty = true
    · simp only [hfe, if_true]
      simp [emptyDF]
    · have hfe2 : ((d.foldl (mergeStep key) ⟨[], [key], []⟩).frames).isEmpty
          = false := Bool.eq_false_iff.mpr hfe
      simp only [hfe2, Bool.false_eq_true, if_false]
      rcases hff : (d.foldl (mergeStep key) ⟨[], [key], []⟩).frames
        with _ | ⟨f, fs⟩
      · rw [hff] at hfe2
        simp at hfe2
      · rw [reduceMerge]
        have hf0 := hframes f (hff ▸ List.mem_cons_self f fs)
        have hc0 := hcols f (hff ▸ List.mem_cons_self f fs)
        have hrest : ∀ g ∈ fs, key ∈ g.cols ∧ (keyCells g key).Nodup ∧
            ∀ v ∈ keyCells g key, v ∈ allKeyCells d key := fun g hg =>
          ⟨hcols g (hff ▸ List.mem_cons_of_mem f hg),
           (hframes g (hff ▸ List.mem_cons_of_mem f hg)).1,
           (hframes g (hff ▸ List.mem_cons_of_mem f hg)).2⟩
        obtain ⟨_, hnd, hsub⟩ := fold_merge_nodup_subset key (allKeyCells d key)
          fs f hc0 hf0.1 hf0.2 hrest
        have hlen : (fs.foldl (fun a g => pd_merge_outer key a g) f).rows.length
            = (keyCells (fs.foldl (fun a g => pd_merge_outer key a g) f)
                key).length := by
          rw [keyCells, List.length_map]
        rw [hlen, ← List.toFinset_card_of_nodup hnd, ← List.card_toFinset]
        apply Finset.card_le_card
        intro a ha
        rw [List.mem_toFinset] at ha ⊢
        exact hsub a ha

/-- Base-measure frame with key 1 duplicated three times (C8 scenario). -/
def dupA : DF :=
  ⟨["GROUP_ID", "X"],
   [fun c => if c = "GROUP_ID" then some 1 else if c = "X" then some 10 else none,
    fun c => if c = "GROUP_ID" then some 1 else if c = "X" then some 11 else none,
    fun c => if c = "GROUP_ID" then some 1 else if c = "X" then some 12 else none]⟩

/-- Advanced-measure frame with key 1 duplicated twice (C8 scenario). -/
def dupB : DF :=
  ⟨["GROUP_ID", "Y"],
   [fun c => if c = "GROUP_ID" then some 1 else if c = "Y" then some 100 else none,
    fun c => if c = "GROUP_ID" then some 1 else if c = "Y" then some 101 else none]⟩

/-- C8 counterexample: merging a 3-row frame and a 2-row frame that
share one duplicated key value yields 6 rows — more than the minimum
(2), more than the key-union size (1), and more than the total input
rows (5) — so the claimed outer-join bound fails on the code's
(always-outer) merge when key values repeat. -/
theorem merge_rowcount_counterexample :
    (merge_measure_types [("Base", some dupA), ("Advanced", some dupB)]
        "GROUP_ID").1.rows.length = 6 ∧
    dupA.rows.length = 3 ∧ dupB.rows.length = 2 ∧
    (allKeyCells [("Base", some dupA), ("Advanced", some dupB)]
        "GROUP_ID").dedup.length = 1 := by
  refine ⟨by decide, by decide, by decide, by decide⟩

theorem merge_rowcount_bound_witness :
    (merge_measure_types [("Base", some dfBaseC1), ("Advanced", some dfAdvC1)]
        "GROUP_ID").1.rows.length ≤
      (allKeyCells [("Base", some dfBaseC1), ("Advanced", some dfAdvC1)]
        "GROUP_ID").dedup.length :=
  merge_rowcount_bound [("Base", some dfBaseC1), ("Advanced", some dfAdvC1)]
    "GROUP_ID"
    (by
      intro e he df hdf
      rcases List.mem_cons.mp he with rfl | he2
      · have hdf2 : df = dfBaseC1 := by simpa using hdf.symm
        subst hdf2
        decide
      · rcases List.mem_cons.mp he2 with rfl | he3
        · have hdf2 : df = dfAdvC1 := by simpa using hdf.symm
          subst hdf2
          decide
        · simp at he3)
